import Mathlib

/-
Shallow embedding of the wasmrun execution engine (src/src/exec.rs together
with src/src/exec/stack.rs and src/src/exec/store.rs), and proofs about the
claims of the specification.

Modelling conventions:
- Rust `Vec` becomes `List`; Vecs used as stacks (operand stack, frame
  stack, instruction-pointer stack) keep their *top at the head* of the list.
- Rust `i32` values are represented by their unsigned 32-bit pattern as a
  `Nat` (< 2^32); signed interpretation is made explicit via `i32Signed`.
  Machine arithmetic that wraps is written with an explicit `% 2^32`.
- A Rust `panic!` / failed `assert!` / out-of-range `Vec` index / `todo!()`
  becomes an `Except.error` carrying a distinguishing error tag, since any
  panic fatally aborts the interpreter.
- The dispatch loop `exec` is given explicit fuel; fuel exhaustion is the
  distinct error `Err.fuel` (a completed execution is an `Except.ok`).
-/

namespace Wasmrun

/-- Numeric value types of the four `Value` variants (parser::types). -/
inductive ValType where
  | i32
  | i64
  | f32
  | f64
deriving DecidableEq, Repr

/-- A function signature: argument types and result types (parser::FuncType).
The engine only ever reads `args.len()` (the call arity). -/
structure FuncType where
  args : List ValType
  ret : List ValType
deriving DecidableEq, Repr

/-- Runtime values (exec/value.rs): a tagged union of the four numeric types.
Each payload is the value's bit pattern as a natural number; for `I32` the
pattern is the unsigned 32-bit representation of the Rust `i32`. -/
inductive Value where
  | I32 (bits : Nat)
  | I64 (bits : Nat)
  | F32 (bits : Nat)
  | F64 (bits : Nat)
deriving DecidableEq, Repr

/-- Instructions (parser::Instruction), restricted to the constructors the
dispatch loop matches on; every other parsed instruction is `Unsupported`
and hits the `_ => todo!()` arm.  `I32Store`/`I32Load` carry the `MemArg`
fields `align` (ignored by the code: `MemArg { align: _, offset }`) and
`offset`.  `Block`/`Loop` carry their nested instruction list; the block
type annotation is ignored by the code (`Block { ty: _, instrs }`). -/
inductive Instruction where
  | I32Const (bits : Nat)
  | I64Const (bits : Nat)
  | F32Const (bits : Nat)
  | F64Const (bits : Nat)
  | LocalGet (idx : Nat)
  | LocalSet (idx : Nat)
  | LocalTee (idx : Nat)
  | GlobalGet (idx : Nat)
  | GlobalSet (idx : Nat)
  | I32Store (align : Nat) (offset : Nat)
  | I32Load (align : Nat) (offset : Nat)
  | I32Eqz
  | I32Le_u
  | I32Sub
  | Call (funcIdx : Nat)
  | CallIndirect (typeIdx : Nat)
  | Return
  | Block (instrs : List Instruction)
  | Loop (instrs : List Instruction)
  | BrIf (lblIdx : Nat)
  | Unsupported
deriving Repr

/-- A parsed function definition (parser::Fun): type index, declared local
types and the body's instruction sequence (`fun.expr.instrs`). -/
structure Fun where
  ty : Nat
  locals : List ValType
  expr : List Instruction
deriving Repr

/-- A store function record (exec/store.rs `Func`): the owning module's index
and the function definition. -/
structure Func where
  module_idx : Nat
  func : Fun
deriving Repr

/-- A store global (exec/store.rs `Global`): current value and mutability
flag ("Only needed for validation"). -/
structure Global where
  value : Value
  mutable : Bool
deriving DecidableEq, Repr

/-- The store (exec/store.rs): flat arrays of function records, tables
(optional function addresses), linear memories (byte buffers, here lists of
byte values < 256), and globals. -/
structure Store where
  funcs : List Func
  tables : List (List (Option Nat))
  mems : List (List Nat)
  globals : List Global
deriving Repr

/-- Mutability of a parsed global declaration (parser::types::Mutability). -/
inductive Mutability where
  | Const
  | Var
deriving DecidableEq, Repr

/-- The type of a parsed global: its mutability (the value type is not
consulted by the engine). -/
structure GlobalType where
  mut_ : Mutability
deriving DecidableEq, Repr

/-- A parsed global declaration: its type and initializer expression. -/
structure ParsedGlobal where
  ty : GlobalType
  expr : List Instruction
deriving Repr

/-- Table limits (parser): only `min` is consulted at allocation. -/
structure Limits where
  min : Nat
deriving DecidableEq, Repr

/-- A parsed table declaration. -/
structure Table where
  limits : Limits
deriving DecidableEq, Repr

/-- A parsed memory declaration: minimum size in pages. -/
structure Mem where
  min : Nat
deriving DecidableEq, Repr

/-- Import descriptions (parser::ImportDesc). -/
inductive ImportDesc where
  | Func (ty : Nat)
  | Table (t : Limits)
  | MemType (m : Mem)
  | Global (g : GlobalType)
deriving DecidableEq, Repr

/-- A parsed import: only the description is consulted at allocation. -/
structure Import where
  desc : ImportDesc
deriving DecidableEq, Repr

/-- Export descriptions (parser::ExportDesc). -/
inductive ExportDesc where
  | Func (idx : Nat)
  | Table (idx : Nat)
  | MemIdx (idx : Nat)
  | Global (idx : Nat)
deriving DecidableEq, Repr

/-- A parsed export: name and description. -/
structure Export where
  nm : String
  desc : ExportDesc
deriving DecidableEq, Repr

/-- A parsed module, as consumed by `allocate_module` (fields the code
destructures and uses; `names` and `datacount` are ignored by it). -/
structure ParsedModule where
  types : List FuncType
  funs : List Fun
  tables : List Table
  mem_addrs : List Mem
  globals : List ParsedGlobal
  start : Option Nat
  imports : List Import
  exports : List Export
deriving Repr

/-- A module instance (exec.rs `Module`): per-index-space address tables,
exports and the optional start function. -/
structure Module where
  types : List FuncType
  func_addrs : List Nat
  table_addrs : List Nat
  mem_addrs : List Nat
  global_addrs : List Nat
  exports : List Export
  start : Option Nat
deriving Repr

/-- The empty module instance (`Module::default()`). -/
def Module.default : Module :=
  { types := [], func_addrs := [], table_addrs := [], mem_addrs := [],
    global_addrs := [], exports := [], start := none }

/-- Region kinds of the control/instruction-pointer stack (exec.rs
`BlockType`). -/
inductive BlockType where
  | Block
  | Loop
  | Function
deriving DecidableEq, Repr

/-- One control entry: region kind, the region's (shared) instruction
sequence, and the cursor of the next instruction. -/
abbrev IpEntry := BlockType × List Instruction × Nat

/-- A call frame (exec/frame.rs, file absent from the sources).
Modelled from the spec: §3 "Frame": ordered local variable slots whose fixed
count is the function's declared locals plus parameters, and the module
index the invocation executes in.  Slots start zeroed. -/
structure Frame where
  locals : List Value
  module_idx : Nat
deriving Repr

/-- The runtime (exec.rs `Runtime`): store, operand stack, frame stack,
module list and the instruction-pointer stack.  The three stacks keep their
top at the head of the list. -/
structure Runtime where
  store : Store
  stack : List Value
  frames : List Frame
  modules : List Module
  ip : List IpEntry
deriving Repr

/-- Error outcomes; in the Rust source each of these aborts the process
(`panic!` / `todo!` / failed `assert!` / out-of-range `Vec` index). -/
inductive Err where
  /-- fuel exhaustion of the embedded dispatch loop (not a program error) -/
  | fuel
  /-- `Stack::pop*` on an empty operand stack -/
  | stackUnderflow
  /-- `Stack::pop_i32` popping a non-I32 value -/
  | typeMismatch
  /-- the explicit `panic!("OOB I32Store …")` bounds-check failure -/
  | oobStore
  /-- the explicit `panic!("OOB I32Load …")` bounds-check failure -/
  | oobLoad
  /-- an out-of-range `Vec`/slice index (Rust index panic) -/
  | indexPanic
  /-- an executed `todo!()` (unimplemented instruction or import lookup) -/
  | todo
  /-- `Option::unwrap` on `None` -/
  | unwrapNone
  /-- a `FrameStack::current` access with no active frame -/
  | noFrame
  /-- `panic!("Global value is not a constant expression: …")` -/
  | constExprInvalid
  /-- the failed `assert!(mem_addrs.len() <= 1)` -/
  | assertFailed
deriving DecidableEq, Repr

/-- Unsigned 32-bit wrap-around (Rust `u32` arithmetic / `as u32` cast). -/
def u32wrap (n : Nat) : Nat := n % 4294967296

/-- The signed (`i32`) reading of a 32-bit pattern. -/
def i32Signed (bits : Nat) : Int :=
  if bits % 4294967296 < 2147483648 then ((bits % 4294967296 : Nat) : Int)
  else ((bits % 4294967296 : Nat) : Int) - 4294967296

/-- Wrapping `i32` subtraction on bit patterns (`val1 - val2`; release-mode
Rust semantics, written with the explicit modulus). -/
def i32SubWrap (a b : Nat) : Nat :=
  (a + (4294967296 - b % 4294967296)) % 4294967296

/-- The `k`-th little-endian byte of a 32-bit pattern (`i32::to_le_bytes`). -/
def leByte (v k : Nat) : Nat := v / 256 ^ k % 256

/-- `i32::from_le_bytes`. -/
def fromLeBytes (b1 b2 b3 b4 : Nat) : Nat :=
  b1 + 256 * b2 + 65536 * b3 + 16777216 * b4

/-- `Stack::pop` (exec/stack.rs): pop the top value; empty stack panics. -/
def popValue : List Value → Except Err (Value × List Value)
  | [] => .error .stackUnderflow
  | v :: rest => .ok (v, rest)

/-- `Stack::pop_i32` (exec/stack.rs): pop and require an `I32`; an empty
stack or a value of another variant panics. -/
def popI32 : List Value → Except Err (Nat × List Value)
  | [] => .error .stackUnderflow
  | .I32 bits :: rest => .ok (bits, rest)
  | _ :: _ => .error .typeMismatch

/-- `Stack::push_bool` (exec/stack.rs): comparisons push `1u32` or `0u32`. -/
def boolBits (b : Bool) : Nat := if b then 1 else 0

/-- `Vec` read at an index; out of range is a Rust index panic. -/
def listIdx {α : Type} (l : List α) (i : Nat) : Except Err α :=
  match l[i]? with
  | some a => .ok a
  | none => .error .indexPanic

/-- `mem[i] = b`: write one byte of a linear memory; out of range is a Rust
index panic. -/
def storeByte (mem : List Nat) (i b : Nat) : Except Err (List Nat) :=
  if i < mem.length then .ok (mem.set i b) else .error .indexPanic

/-- `frames.current().module()`: the module index of the top frame. -/
def currentModuleIdx (rt : Runtime) : Except Err Nat :=
  match rt.frames with
  | [] => .error .noFrame
  | f :: _ => .ok f.module_idx

/-- Replace module `m`'s linear memory in the store. -/
def setMem (s : Store) (m : Nat) (mem : List Nat) : Store :=
  { s with mems := s.mems.set m mem }

/-- `Frame::get_local` (frame.rs, absent). Modelled from the spec: read slot
`idx`; out of range is fatal. -/
def Frame.get_local (f : Frame) (idx : Nat) : Except Err Value :=
  listIdx f.locals idx

/-- `Frame::set_local` (frame.rs, absent). Modelled from the spec: overwrite
slot `idx`; out of range is fatal. -/
def Frame.set_local (f : Frame) (idx : Nat) (v : Value) : Except Err Frame :=
  if idx < f.locals.length then .ok { f with locals := f.locals.set idx v }
  else .error .indexPanic

/-- `Runtime::next_instr` (exec.rs lines 68-92): advance the top control
entry's cursor; at the end of the region's sequence a `Function` entry keeps
a cursor one past the end, a `Block` entry is discarded, a `Loop` entry
restarts at cursor 0. -/
def nextInstr (rt : Runtime) : Runtime :=
  match rt.ip with
  | [] => rt
  | (block_ty, current_block, block_ip) :: rest =>
    if block_ip + 1 ≥ current_block.length then
      match block_ty with
      | .Function => { rt with ip := (block_ty, current_block, block_ip + 1) :: rest }
      | .Block => { rt with ip := rest }
      | .Loop => { rt with ip := (block_ty, current_block, 0) :: rest }
    else { rt with ip := (block_ty, current_block, block_ip + 1) :: rest }

/-- The non-control instruction arms of `exec` (exec.rs lines 240-354),
minus the trailing `rt.next_instr()` that each arm performs, which the
dispatch loop applies after this returns `ok` (these arms never touch the
instruction-pointer stack themselves).  Control instructions (`Call`,
`CallIndirect`, `Return`, `Block`, `Loop`, `BrIf`) are handled in `exec`
directly and never reach this function. -/
def execSimple (instr : Instruction) (rt : Runtime) : Except Err Runtime :=
  match instr with
  | .I32Store _align offset =>
    match popI32 rt.stack with
    | .error e => .error e
    | .ok (value, s1) =>
      match popI32 s1 with
      | .error e => .error e
      | .ok (addrBits, s2) =>
        -- let addr = (addr + offset) as usize  (u32 addition, wraps)
        let addr := u32wrap (addrBits + offset)
        let end_addr := addr + 4
        match currentModuleIdx rt with
        | .error e => .error e
        | .ok current_module =>
          match listIdx rt.store.mems current_module with
          | .error e => .error e
          | .ok mem =>
            if end_addr > mem.length then .error .oobStore
            else
              -- let [b1, b2, b3, b4] = value.to_le_bytes();
              -- mem[addr] = b1; mem[addr+1] = b2; mem[addr+2] = b3;
              -- mem[addr+4] = b4;   (index addr+3 is never written)
              match storeByte mem addr (leByte value 0) with
              | .error e => .error e
              | .ok m1 =>
                match storeByte m1 (addr + 1) (leByte value 1) with
                | .error e => .error e
                | .ok m2 =>
                  match storeByte m2 (addr + 2) (leByte value 2) with
                  | .error e => .error e
                  | .ok m3 =>
                    match storeByte m3 (addr + 4) (leByte value 3) with
                    | .error e => .error e
                    | .ok m4 =>
                      .ok { rt with stack := s2,
                                    store := setMem rt.store current_module m4 }
  | .I32Load _align offset =>
    match popI32 rt.stack with
    | .error e => .error e
    | .ok (addrBits, s1) =>
      let addr := u32wrap (addrBits + offset)
      let end_addr := addr + 4
      match currentModuleIdx rt with
      | .error e => .error e
      | .ok current_module =>
        match listIdx rt.store.mems current_module with
        | .error e => .error e
        | .ok mem =>
          if end_addr > mem.length then .error .oobLoad
          else
            match listIdx mem addr with
            | .error e => .error e
            | .ok b1 =>
              match listIdx mem (addr + 1) with
              | .error e => .error e
              | .ok b2 =>
                match listIdx mem (addr + 2) with
                | .error e => .error e
                | .ok b3 =>
                  match listIdx mem (addr + 3) with
                  | .error e => .error e
                  | .ok b4 =>
                    .ok { rt with stack := .I32 (fromLeBytes b1 b2 b3 b4) :: s1 }
  | .LocalGet idx =>
    match rt.frames with
    | [] => .error .noFrame
    | f :: _ =>
      match f.get_local idx with
      | .error e => .error e
      | .ok val => .ok { rt with stack := val :: rt.stack }
  | .LocalSet idx =>
    match popValue rt.stack with
    | .error e => .error e
    | .ok (val, s1) =>
      match rt.frames with
      | [] => .error .noFrame
      | f :: rest =>
        match f.set_local idx val with
        | .error e => .error e
        | .ok f2 => .ok { rt with stack := s1, frames := f2 :: rest }
  | .LocalTee idx =>
    match popValue rt.stack with
    | .error e => .error e
    | .ok (val, s1) =>
      match rt.frames with
      | [] => .error .noFrame
      | f :: rest =>
        match f.set_local idx val with
        | .error e => .error e
        | .ok f2 => .ok { rt with stack := val :: s1, frames := f2 :: rest }
  | .GlobalGet idx =>
    match currentModuleIdx rt with
    | .error e => .error e
    | .ok current_module =>
      match listIdx rt.modules current_module with
      | .error e => .error e
      | .ok mdl =>
        match listIdx mdl.global_addrs idx with
        | .error e => .error e
        | .ok global_idx =>
          match listIdx rt.store.globals global_idx with
          | .error e => .error e
          | .ok g => .ok { rt with stack := g.value :: rt.stack }
  | .GlobalSet idx =>
    match currentModuleIdx rt with
    | .error e => .error e
    | .ok current_module =>
      match listIdx rt.modules current_module with
      | .error e => .error e
      | .ok mdl =>
        match listIdx mdl.global_addrs idx with
        | .error e => .error e
        | .ok global_idx =>
          match popValue rt.stack with
          | .error e => .error e
          | .ok (value, s1) =>
            match listIdx rt.store.globals global_idx with
            | .error e => .error e
            | .ok g =>
              -- rt.store.globals[global_idx].value = value;
              -- (the `mutable` flag is never consulted)
              .ok { rt with stack := s1,
                            store := { rt.store with
                              globals := rt.store.globals.set global_idx
                                { g with value := value } } }
  | .I32Const bits => .ok { rt with stack := .I32 bits :: rt.stack }
  | .I64Const bits => .ok { rt with stack := .I64 bits :: rt.stack }
  | .F32Const bits => .ok { rt with stack := .F32 bits :: rt.stack }
  | .F64Const bits => .ok { rt with stack := .F64 bits :: rt.stack }
  | .I32Eqz =>
    match popI32 rt.stack with
    | .error e => .error e
    | .ok (val, s1) =>
      .ok { rt with stack := .I32 (boolBits (val == 0)) :: s1 }
  | .I32Le_u =>
    match popI32 rt.stack with
    | .error e => .error e
    | .ok (val2, s1) =>
      match popI32 s1 with
      | .error e => .error e
      | .ok (val1, s2) =>
        -- rt.stack.push_bool(val1 <= val2);
        -- `val1`/`val2` are Rust `i32`, so `<=` is the *signed* comparison.
        .ok { rt with stack := .I32 (boolBits (i32Signed val1 ≤ i32Signed val2)) :: s2 }
  | .I32Sub =>
    match popI32 rt.stack with
    | .error e => .error e
    | .ok (val2, s1) =>
      match popI32 s1 with
      | .error e => .error e
      | .ok (val1, s2) =>
        .ok { rt with stack := .I32 (i32SubWrap val1 val2) :: s2 }
  | _ => .error .todo

/-- Argument binding in `call` (exec.rs lines 201-204):
`for local_idx in (0..fun_arity).rev() { set_local(local_idx, pop()) }`. -/
def bindArgs : Nat → Frame → List Value → Except Err (Frame × List Value)
  | 0, f, s => .ok (f, s)
  | k + 1, f, s =>
    match popValue s with
    | .error e => .error e
    | .ok (arg_val, s1) =>
      match f.set_local k arg_val with
      | .error e => .error e
      | .ok f1 => bindArgs k f1 s1

/-- The setup phase of `call` (exec.rs lines 188-208): resolve the function
through the module's `func_addrs` (the unresolved-import sentinel
`u32::MAX` fails the store lookup), push a fresh frame for the callee's
owning module, bind `fun_arity` arguments popped off the operand stack into
the first locals, and push a `Function` control entry at cursor 0. -/
def callSetup (rt : Runtime) (module_idx fun_idx : Nat) : Except Err Runtime :=
  match listIdx rt.modules module_idx with
  | .error e => .error e
  | .ok mdl =>
    match listIdx mdl.func_addrs fun_idx with
    | .error e => .error e
    | .ok fun_addr =>
      match listIdx rt.store.funcs fun_addr with
      | .error e => .error e
      | .ok func =>
        match listIdx mdl.types func.func.ty with
        | .error e => .error e
        | .ok fty =>
          let fun_arity := fty.args.length
          -- frames.push(func): fresh zeroed slots, declared locals + params.
          let frame0 : Frame :=
            { locals := List.replicate (fun_arity + func.func.locals.length) (.I32 0),
              module_idx := func.module_idx }
          match bindArgs fun_arity frame0 rt.stack with
          | .error e => .error e
          | .ok (frame, stack1) =>
            .ok { rt with
                    frames := frame :: rt.frames,
                    stack := stack1,
                    ip := (BlockType.Function, func.func.expr, 0) :: rt.ip }

/-- Is a control entry a `Block` or `Loop` entry? (the teardown loop's
`while let Some((BlockType::Block | BlockType::Loop, _, _))` pattern). -/
def isBlockOrLoop : IpEntry → Bool
  | (.Block, _, _) => true
  | (.Loop, _, _) => true
  | (.Function, _, _) => false

/-- The teardown phase of `call` (exec.rs lines 213-221): pop the function
frame, pop any leftover `Block`/`Loop` control entries, then pop one more
entry (the `Function` entry; `rt.ip.pop().unwrap()` panics if none is
left). -/
def callTeardown (rt : Runtime) : Except Err Runtime :=
  match rt.frames with
  | [] => .error .noFrame
  | _ :: frames1 =>
    match rt.ip.dropWhile isBlockOrLoop with
    | [] => .error .unwrapNone
    | _ :: ipRest => .ok { rt with frames := frames1, ip := ipRest }

/-- The `BrIf` arm of the dispatch loop (exec.rs lines 413-424): pop an i32
condition; if it is nonzero, pop `lbl_idx + 1` control entries (the parent
block's cursor was already bumped when that block was entered, so it is not
updated); if it is zero, just advance via `next_instr`. -/
def execBrIf (lbl_idx : Nat) (rt : Runtime) : Except Err Runtime :=
  match popI32 rt.stack with
  | .error e => .error e
  | .ok (val, s1) =>
    if val ≠ 0 then .ok { rt with stack := s1, ip := rt.ip.drop (lbl_idx + 1) }
    else .ok (nextInstr { rt with stack := s1 })

/-- The dispatch loop `exec` (exec.rs lines 224-429), with explicit fuel.
Each loop iteration inspects the top control entry; a cursor equal to the
sequence length pops/advances the region and returns; otherwise the
instruction at the cursor executes.  Control instructions are handled
inline exactly as in the source; every other instruction goes through
`execSimple` followed by `next_instr`. -/
def exec : Nat → Runtime → Except Err Runtime
  | 0, _ => .error .fuel
  | n + 1, rt =>
    match rt.ip with
    | [] => .ok rt
    | (_, block, ip) :: _ =>
      if ip = block.length then .ok (nextInstr rt)
      else
        match block[ip]? with
        | none => .error .indexPanic
        | some instr =>
          match instr with
          | .Call func_idx =>
            match currentModuleIdx rt with
            | .error e => .error e
            | .ok module_idx =>
              match callSetup rt module_idx func_idx with
              | .error e => .error e
              | .ok rt1 =>
                match exec n rt1 with
                | .error e => .error e
                | .ok rt2 =>
                  match callTeardown rt2 with
                  | .error e => .error e
                  | .ok rt3 => exec n (nextInstr rt3)
          | .CallIndirect _ => .error .todo
          | .Return => .ok rt
          | .Block instrs =>
            -- bump the current block's cursor, then enter the new block
            exec n { nextInstr rt with
                       ip := (BlockType.Block, instrs, 0) :: (nextInstr rt).ip }
          | .Loop _ => .error .todo
          | .BrIf lbl_idx =>
            match execBrIf lbl_idx rt with
            | .error e => .error e
            | .ok rt1 => exec n rt1
          | _ =>
            match execSimple instr rt with
            | .error e => .error e
            | .ok rt1 => exec n (nextInstr rt1)

/-- `call` (exec.rs lines 188-222): setup, run the dispatch loop to
completion, teardown. -/
def call (fuel : Nat) (rt : Runtime) (module_idx fun_idx : Nat) :
    Except Err Runtime :=
  match callSetup rt module_idx fun_idx with
  | .error e => .error e
  | .ok rt1 =>
    match exec fuel rt1 with
    | .error e => .error e
    | .ok rt2 => callTeardown rt2

/-- Modelled from the spec: the constant-expression classifier
(`src/src/exec/const_expr.rs`, `ConstExpr` / `ConstExpr::from_expr`) is not
among the provided sources.  Per §4.2, a constant expression is exactly one
instruction: a numeric constant, or a get-global (which may only reference
an imported global). -/
inductive ConstExpr where
  | Const (v : Value)
  | GlobalGet (idx : Nat)
deriving DecidableEq, Repr

/-- Modelled from the spec: classify an initializer expression as one of the
two permitted constant forms, or reject it (`ConstExpr::from_expr`). -/
def ConstExpr.from_expr : List Instruction → Option ConstExpr
  | [.I32Const bits] => some (.Const (.I32 bits))
  | [.I64Const bits] => some (.Const (.I64 bits))
  | [.F32Const bits] => some (.Const (.F32 bits))
  | [.F64Const bits] => some (.Const (.F64 bits))
  | [.GlobalGet idx] => some (.GlobalGet idx)
  | _ => none

/-- The globals loop of `allocate_module` (exec.rs lines 154-174): evaluate
each initializer as a constant expression; a non-constant expression
panics, a get-global form hits the unimplemented import lookup (`todo!()`),
a constant is stored with the declared mutability and its store address is
recorded. -/
def allocGlobals : List ParsedGlobal → List Global → List Nat →
    Except Err (List Global × List Nat)
  | [], storeGlobals, addrs => .ok (storeGlobals, addrs)
  | g :: rest, storeGlobals, addrs =>
    let global_idx := storeGlobals.length
    match ConstExpr.from_expr g.expr with
    | none => .error .constExprInvalid
    | some (.GlobalGet _idx) => .error .todo
    | some (.Const value) =>
      allocGlobals rest
        (storeGlobals ++ [{ value := value, mutable := g.ty.mut_ = .Var }])
        (addrs ++ [global_idx])

/-- The functions loop of `allocate_module` (exec.rs lines 133-137). -/
def allocFuns (module_idx : Nat) : List Fun → List Func → List Nat →
    List Func × List Nat
  | [], storeFuncs, addrs => (storeFuncs, addrs)
  | f :: rest, storeFuncs, addrs =>
    let fun_idx := storeFuncs.length
    allocFuns module_idx rest
      (storeFuncs ++ [{ module_idx := module_idx, func := f }])
      (addrs ++ [fun_idx])

/-- The tables loop of `allocate_module` (exec.rs lines 140-144). -/
def allocTables : List Table → List (List (Option Nat)) → List Nat →
    List (List (Option Nat)) × List Nat
  | [], storeTables, addrs => (storeTables, addrs)
  | t :: rest, storeTables, addrs =>
    let table_idx := storeTables.length
    allocTables rest (storeTables ++ [List.replicate t.limits.min none])
      (addrs ++ [table_idx])

/-- The memories loop of `allocate_module` (exec.rs lines 148-152); page
size 65536. -/
def allocMems : List Mem → List (List Nat) → List Nat →
    List (List Nat) × List Nat
  | [], storeMems, addrs => (storeMems, addrs)
  | m :: rest, storeMems, addrs =>
    let mem_idx := storeMems.length
    allocMems rest (storeMems ++ [List.replicate (m.min * 65536) 0])
      (addrs ++ [mem_idx])

/-- The imported-functions loop (exec.rs lines 122-130): a function import
reserves the sentinel address `u32::MAX`; other imports are skipped. -/
def allocImports : List Import → List Nat → List Nat
  | [], addrs => addrs
  | { desc := .Func _ } :: rest, addrs => allocImports rest (addrs ++ [4294967295])
  | _ :: rest, addrs => allocImports rest addrs

/-- `allocate_module` (exec.rs lines 95-186): reserve store slots for the
module's functions, tables, memories and globals, evaluate global
initializers, and append the module instance; returns the new module's
index. -/
def allocate_module (rt : Runtime) (pm : ParsedModule) :
    Except Err (Runtime × Nat) :=
  let module_idx := rt.modules.length
  let func_addrs0 := allocImports pm.imports []
  let (funcs, func_addrs) := allocFuns module_idx pm.funs rt.store.funcs func_addrs0
  let (tables, table_addrs) := allocTables pm.tables rt.store.tables []
  if pm.mem_addrs.length > 1 then .error .assertFailed
  else
    let (mems, mem_addrs) := allocMems pm.mem_addrs rt.store.mems []
    match allocGlobals pm.globals rt.store.globals [] with
    | .error e => .error e
    | .ok (globals, global_addrs) =>
      let inst : Module :=
        { types := pm.types, func_addrs := func_addrs,
          table_addrs := table_addrs, mem_addrs := mem_addrs,
          global_addrs := global_addrs, exports := pm.exports,
          start := pm.start }
      .ok ({ rt with
               store := { funcs := funcs, tables := tables, mems := mems,
                          globals := globals },
               modules := rt.modules ++ [inst] },
           module_idx)

mutual

/-- Branch-label validity of one instruction executing at dynamic block
depth `d` (the number of `Block` control entries above the current
invocation's `Function` entry at the moment the instruction runs).  `last`
is true when the instruction is the final one of a `Block` region: in that
case `next_instr` discards the region's entry before a nested block is
pushed, so a nested block enters at depth `d` rather than `d + 1`.  A
`br_if` is valid when its label pops only entries belonging to the current
invocation, i.e. `lbl_idx + 1 ≤ d`. -/
def wfInstrAt : Nat → Bool → Instruction → Bool
  | d, last, .Block inner => wfSeqB (if last then d else d + 1) inner
  | d, _, .BrIf lbl_idx => decide (lbl_idx < d)
  | _, _, _ => true

/-- Branch-label validity of an instruction sequence forming a `Block`
region's body at dynamic depth `d` (the final instruction runs in tail
position). -/
def wfSeqB : Nat → List Instruction → Bool
  | _, [] => true
  | d, [i] => wfInstrAt d true i
  | d, i :: j :: rest => wfInstrAt d false i && wfSeqB d (j :: rest)

end

/-- Branch-label validity of a function body: its instructions run at block
depth 0, and the `Function` entry is never discarded by `next_instr`, so
there is no tail-position discount. -/
def wfSeqF (instrs : List Instruction) : Bool :=
  instrs.all (wfInstrAt 0 false)

/-- Branch-label validity of every function body in a store. -/
def WfFuncs (funcs : List Func) : Bool :=
  funcs.all (fun f => wfSeqF f.func.expr)

/-- Invariant of the control entries sitting above the current invocation's
`Function` entry (listed top first): each is a `Block` entry whose remaining
instructions are valid at its dynamic depth (1 for the bottom entry,
growing towards the top). -/
def wfStk : List IpEntry → Bool
  | [] => true
  | (ty, blk, c) :: rest =>
    (match ty with | .Block => true | _ => false) &&
      wfSeqB (rest.length + 1) (blk.drop c) && wfStk rest

/-- C1: the claim states that `i32.store` at an in-bounds address followed by
`i32.load` at the same address and offset pushes exactly the stored value,
with memory bytes `a+o .. a+o+3` holding the value's little-endian encoding.
The code instead writes the fourth byte to index `a+o+4` and never writes
`a+o+3` (exec.rs line 256, `mem[addr + 4] = b4`), so loading back picks up a
stale byte 3.  Evaluating the code at the failing input — memory of 8 zero
bytes, storing v = 16777216 = 2^24 (little-endian bytes `[0,0,0,1]`) at
address 0 with offset 0, then loading — the load pushes 0, not 16777216,
and memory holds `[0,0,0,0,1,0,0,0]`: byte 3 was never written. -/
theorem C1_store_then_load_failing_input :
    exec 30
      { store := { funcs := [], tables := [],
                   mems := [[0, 0, 0, 0, 0, 0, 0, 0]], globals := [] },
        stack := [],
        frames := [{ locals := [], module_idx := 0 }],
        modules := [],
        ip := [(BlockType.Function,
                [.I32Const 0, .I32Const 16777216, .I32Store 0 0,
                 .I32Const 0, .I32Load 0 0], 0)] } =
      .ok
      { store := { funcs := [], tables := [],
                   mems := [[0, 0, 0, 0, 1, 0, 0, 0]], globals := [] },
        stack := [.I32 0],
        frames := [{ locals := [], module_idx := 0 }],
        modules := [],
        ip := [(BlockType.Function,
                [.I32Const 0, .I32Const 16777216, .I32Store 0 0,
                 .I32Const 0, .I32Load 0 0], 6)] } := by
  rfl

/-- C2: executing a function body `[block [A, B], T]` (with `A`, `B`, `T`
arbitrary i32 constants) pushes A's value, then B's, then T's — so the block
executes A then B and falls through to the trailing code — and completes
with the instruction-pointer stack holding only the `Function` entry with
its cursor one past the end of the body (no leftover `Block` entries), which
is the sole configuration in which the dispatch loop hands control back to
`call`. -/
theorem C2_block_fall_through (x y z : Nat) :
    exec 30
      { store := { funcs := [], tables := [], mems := [], globals := [] },
        stack := [], frames := [], modules := [],
        ip := [(BlockType.Function,
                [.Block [.I32Const x, .I32Const y], .I32Const z], 0)] } =
      .ok
      { store := { funcs := [], tables := [], mems := [], globals := [] },
        stack := [.I32 z, .I32 y, .I32 x], frames := [], modules := [],
        ip := [(BlockType.Function,
                [.Block [.I32Const x, .I32Const y], .I32Const z], 3)] } := by
  rfl

/-- C3: the claim states that `i32.le_u` compares its operands as unsigned
32-bit integers.  The code pops them with `pop_i32` as Rust `i32` and
compares with `<=`, a *signed* comparison (exec.rs line 345).  Evaluating
the code at the failing input — first-pushed operand `0xFFFFFFFF`
(4294967295 unsigned, -1 signed), second-pushed operand `0` — the code
pushes 1 (true, since -1 ≤ 0 signed), whereas the unsigned comparison
4294967295 ≤ 0 required by the claim is false and must push 0. -/
theorem C3_le_u_signed_failing_input :
    execSimple .I32Le_u
      { store := { funcs := [], tables := [], mems := [], globals := [] },
        stack := [.I32 0, .I32 4294967295], frames := [], modules := [],
        ip := [] } =
      .ok
      { store := { funcs := [], tables := [], mems := [], globals := [] },
        stack := [.I32 1], frames := [], modules := [], ip := [] } := by
  rfl

/-- C8 counterexample: the claim's zero-condition branch says `br_if` with a
false condition "only advances the current region's cursor by one".  At the
concrete input where `br_if 0` is the final instruction of a `block` (a
`Block` entry at cursor 0 over the one-instruction sequence `[br_if 0]`,
condition 0 on the stack), `next_instr` instead *discards* the `Block`
entry: the resulting instruction-pointer stack has 1 entry, not the 2
entries (with the block's cursor advanced to 1) the claim requires. -/
theorem C8_false_cond_at_block_end_discards_entry :
    execBrIf 0
      { store := { funcs := [], tables := [], mems := [], globals := [] },
        stack := [.I32 0], frames := [], modules := [],
        ip := [(BlockType.Block, [.BrIf 0], 0),
               (BlockType.Function, [.Block [.BrIf 0]], 1)] } =
      .ok
      { store := { funcs := [], tables := [], mems := [], globals := [] },
        stack := [], frames := [], modules := [],
        ip := [(BlockType.Function, [.Block [.BrIf 0]], 1)] } ∧
    (Option.map (fun s : Runtime => s.ip.length)
      (execBrIf 0
        { store := { funcs := [], tables := [], mems := [], globals := [] },
          stack := [.I32 0], frames := [], modules := [],
          ip := [(BlockType.Block, [.BrIf 0], 0),
                 (BlockType.Function, [.Block [.BrIf 0]], 1)] }).toOption) ≠ some 2 := by
  exact ⟨rfl, by decide⟩

/-- C8 amended: `br_if` pops an i32 condition.  If the condition is nonzero
it pops exactly `label + 1` control entries (provided that many exist),
leaving the remaining entries — in particular the enclosing region's
already-advanced cursor — untouched.  If the condition is zero it advances
per the region-advancement rules: the current region's cursor advances by
one when further instructions remain; when the cursor was at the region's
final instruction, a `Block` entry is discarded, a `Loop` entry restarts at
cursor 0, and a `Function` entry keeps a cursor one past the end. -/
theorem C8_brif_pops_or_advances (lbl : Nat) (rt : Runtime) (v : Nat)
    (s1 : List Value) (hstack : rt.stack = .I32 v :: s1) :
    (v ≠ 0 →
      execBrIf lbl rt = .ok { rt with stack := s1, ip := rt.ip.drop (lbl + 1) } ∧
      (lbl + 1 ≤ rt.ip.length →
        (rt.ip.drop (lbl + 1)).length + (lbl + 1) = rt.ip.length)) ∧
    (v = 0 →
      ∀ ty blk c rest, rt.ip = (ty, blk, c) :: rest →
        (c + 1 < blk.length →
          execBrIf lbl rt = .ok { rt with stack := s1, ip := (ty, blk, c + 1) :: rest }) ∧
        (c + 1 ≥ blk.length →
          execBrIf lbl rt = .ok { rt with
            stack := s1,
            ip := (match ty with
                   | .Function => (ty, blk, c + 1) :: rest
                   | .Block => rest
                   | .Loop => (ty, blk, 0) :: rest) })) := by
  constructor
  · intro hv
    refine ⟨by simp [execBrIf, hstack, popI32, hv], fun hlen => ?_⟩
    simp [List.length_drop]
    omega
  · intro hv ty blk c rest hip
    subst hv
    constructor
    · intro hlt
      simp [execBrIf, hstack, popI32, nextInstr, hip, Nat.not_le.mpr hlt,
            if_neg (by omega : ¬ c + 1 ≥ blk.length)]
    · intro hge
      cases ty <;>
        simp [execBrIf, hstack, popI32, nextInstr, hip, if_pos hge]

/-- C10: `global.set` never consults the stored mutability flag: for a
global index that resolves through the current module's `global_addrs`, it
pops a value and overwrites the global's stored value unconditionally,
succeeding for an arbitrary mutability flag `b` — in particular for an
immutable global (`b = false`) — and leaving the flag itself unchanged. -/
theorem C10_global_set_ignores_mutability (idx gaddr : Nat) (v old : Value)
    (b : Bool) (rt : Runtime) (f : Frame) (fs : List Frame) (mdl : Module)
    (s1 : List Value)
    (hframes : rt.frames = f :: fs)
    (hmod : rt.modules[f.module_idx]? = some mdl)
    (haddr : mdl.global_addrs[idx]? = some gaddr)
    (hstack : rt.stack = v :: s1)
    (hglob : rt.store.globals[gaddr]? = some { value := old, mutable := b }) :
    execSimple (.GlobalSet idx) rt =
      .ok { rt with
              stack := s1,
              store := { rt.store with
                globals := rt.store.globals.set gaddr
                  ({ value := v, mutable := b } : Global) } } := by
  simp [execSimple, currentModuleIdx, hframes, listIdx, hmod, haddr, hstack,
        popValue, hglob]

/-- Witness for the amended C8 theorem at concrete inputs: a taken branch
with label 0 from inside one block pops exactly that block's entry, and an
untaken `br_if` mid-block just advances the cursor. -/
theorem C8_brif_pops_or_advances_witness :
    execBrIf 0
      { store := { funcs := [], tables := [], mems := [], globals := [] },
        stack := [.I32 1, .I32 7], frames := [], modules := [],
        ip := [(BlockType.Block, [.BrIf 0, .I32Sub], 0),
               (BlockType.Function, [.Block [.BrIf 0, .I32Sub]], 1)] } =
      .ok
      { store := { funcs := [], tables := [], mems := [], globals := [] },
        stack := [.I32 7], frames := [], modules := [],
        ip := [(BlockType.Function, [.Block [.BrIf 0, .I32Sub]], 1)] } ∧
    execBrIf 3
      { store := { funcs := [], tables := [], mems := [], globals := [] },
        stack := [.I32 0], frames := [], modules := [],
        ip := [(BlockType.Block, [.BrIf 3, .I32Sub], 0),
               (BlockType.Function, [.Block [.BrIf 3, .I32Sub]], 1)] } =
      .ok
      { store := { funcs := [], tables := [], mems := [], globals := [] },
        stack := [], frames := [], modules := [],
        ip := [(BlockType.Block, [.BrIf 3, .I32Sub], 1),
               (BlockType.Function, [.Block [.BrIf 3, .I32Sub]], 1)] } := by
  constructor
  · exact ((C8_brif_pops_or_advances 0
      { store := { funcs := [], tables := [], mems := [], globals := [] },
        stack := [.I32 1, .I32 7], frames := [], modules := [],
        ip := [(BlockType.Block, [.BrIf 0, .I32Sub], 0),
               (BlockType.Function, [.Block [.BrIf 0, .I32Sub]], 1)] }
      1 [.I32 7] rfl).1 (by decide)).1
  · exact (((C8_brif_pops_or_advances 3
      { store := { funcs := [], tables := [], mems := [], globals := [] },
        stack := [.I32 0], frames := [], modules := [],
        ip := [(BlockType.Block, [.BrIf 3, .I32Sub], 0),
               (BlockType.Function, [.Block [.BrIf 3, .I32Sub]], 1)] }
      0 [] rfl).2 rfl (BlockType.Block) [.BrIf 3, .I32Sub] 0
      [(BlockType.Function, [.Block [.BrIf 3, .I32Sub]], 1)] rfl).1 (by decide))

/-- Witness for C10 at a concrete input: setting global 0, declared
immutable (`mutable = false`) with stored value 9, succeeds and overwrites
the value with the popped 5, keeping the flag false. -/
theorem C10_global_set_ignores_mutability_witness :
    execSimple (.GlobalSet 0)
      { store := { funcs := [], tables := [], mems := [],
                   globals := [{ value := .I32 9, mutable := false }] },
        stack := [.I32 5], frames := [{ locals := [], module_idx := 0 }],
        modules := [{ Module.default with global_addrs := [0] }],
        ip := [] } =
      .ok
      { store := { funcs := [], tables := [], mems := [],
                   globals := [{ value := .I32 5, mutable := false }] },
        stack := [], frames := [{ locals := [], module_idx := 0 }],
        modules := [{ Module.default with global_addrs := [0] }],
        ip := [] } := by
  exact C10_global_set_ignores_mutability 0 0 (.I32 5) (.I32 9) false
    { store := { funcs := [], tables := [], mems := [],
                 globals := [{ value := .I32 9, mutable := false }] },
      stack := [.I32 5], frames := [{ locals := [], module_idx := 0 }],
      modules := [{ Module.default with global_addrs := [0] }],
      ip := [] }
    { locals := [], module_idx := 0 } [] { Module.default with global_addrs := [0] }
    [] rfl rfl rfl rfl rfl

/-- C4: for every execution of `i32.store` or `i32.load` (address `a` and
offset `off` popped/carried as in the code, effective address
`(a + off) mod 2^32` per the `u32` addition), if the 4-byte span past the
effective address extends beyond the current module's memory byte length,
the instruction fails with the fatal out-of-bounds error; if the span lies
within the memory length, the bounds check does not fail (the store never
reports out-of-bounds, and the load succeeds outright). -/
theorem C4_mem_bounds_check (al off a v : Nat) (mem : List Nat)
    (rest : List Value) (fs : List Func) (ts : List (List (Option Nat)))
    (gl : List Global) (ms : List Module) (L : List Value)
    (ips : List IpEntry) :
    (u32wrap (a + off) + 4 > mem.length →
      execSimple (.I32Store al off)
        { store := { funcs := fs, tables := ts, mems := [mem], globals := gl },
          stack := .I32 v :: .I32 a :: rest,
          frames := [{ locals := L, module_idx := 0 }],
          modules := ms, ip := ips } = .error .oobStore ∧
      execSimple (.I32Load al off)
        { store := { funcs := fs, tables := ts, mems := [mem], globals := gl },
          stack := .I32 a :: rest,
          frames := [{ locals := L, module_idx := 0 }],
          modules := ms, ip := ips } = .error .oobLoad) ∧
    (u32wrap (a + off) + 4 ≤ mem.length →
      execSimple (.I32Store al off)
        { store := { funcs := fs, tables := ts, mems := [mem], globals := gl },
          stack := .I32 v :: .I32 a :: rest,
          frames := [{ locals := L, module_idx := 0 }],
          modules := ms, ip := ips } ≠ .error .oobStore ∧
      ∃ st', execSimple (.I32Load al off)
        { store := { funcs := fs, tables := ts, mems := [mem], globals := gl },
          stack := .I32 a :: rest,
          frames := [{ locals := L, module_idx := 0 }],
          modules := ms, ip := ips } = .ok st') := by
  constructor
  · intro h
    constructor
    · simp [execSimple, popI32, currentModuleIdx, listIdx, if_pos h]
    · simp [execSimple, popI32, currentModuleIdx, listIdx, if_pos h]
  · intro h
    have h0 : u32wrap (a + off) < mem.length := by omega
    have h1 : u32wrap (a + off) + 1 < mem.length := by omega
    have h2 : u32wrap (a + off) + 2 < mem.length := by omega
    have h3 : u32wrap (a + off) + 3 < mem.length := by omega
    constructor
    · rcases Nat.lt_or_ge (u32wrap (a + off) + 4) mem.length with h4 | h4
      · simp [execSimple, popI32, currentModuleIdx, listIdx, storeByte,
              if_neg (by omega : ¬ u32wrap (a + off) + 4 > mem.length),
              if_pos h0, List.length_set, if_pos h1, if_pos h2, if_pos h4]
      · have h4e : u32wrap (a + off) + 4 = mem.length := by omega
        simp [execSimple, popI32, currentModuleIdx, listIdx, storeByte,
              if_neg (by omega : ¬ u32wrap (a + off) + 4 > mem.length),
              if_pos h0, List.length_set, if_pos h1, if_pos h2,
              if_neg (by omega : ¬ u32wrap (a + off) + 4 < mem.length)]
    · simp [execSimple, popI32, currentModuleIdx, listIdx,
            if_neg (by omega : ¬ u32wrap (a + off) + 4 > mem.length),
            List.getElem?_eq_getElem h0, List.getElem?_eq_getElem h1,
            List.getElem?_eq_getElem h2, List.getElem?_eq_getElem h3]

/-- Witness for C4 at concrete inputs: with an 8-byte memory, address 6
(span `[6,10)` exceeds length 8) makes both store and load fail with the
out-of-bounds error, while address 0 (span `[0,4)`) passes the bounds check
(store does not report out-of-bounds; load succeeds). -/
theorem C4_mem_bounds_check_witness :
    (execSimple (.I32Store 0 0)
        { store := { funcs := [], tables := [],
                     mems := [[0, 0, 0, 0, 0, 0, 0, 0]], globals := [] },
          stack := [.I32 42, .I32 6],
          frames := [{ locals := [], module_idx := 0 }],
          modules := [], ip := [] } = .error .oobStore ∧
      execSimple (.I32Load 0 0)
        { store := { funcs := [], tables := [],
                     mems := [[0, 0, 0, 0, 0, 0, 0, 0]], globals := [] },
          stack := [.I32 6],
          frames := [{ locals := [], module_idx := 0 }],
          modules := [], ip := [] } = .error .oobLoad) ∧
    (execSimple (.I32Store 0 0)
        { store := { funcs := [], tables := [],
                     mems := [[0, 0, 0, 0, 0, 0, 0, 0]], globals := [] },
          stack := [.I32 42, .I32 0],
          frames := [{ locals := [], module_idx := 0 }],
          modules := [], ip := [] } ≠ .error .oobStore ∧
      ∃ st', execSimple (.I32Load 0 0)
        { store := { funcs := [], tables := [],
                     mems := [[0, 0, 0, 0, 0, 0, 0, 0]], globals := [] },
          stack := [.I32 0],
          frames := [{ locals := [], module_idx := 0 }],
          modules := [], ip := [] } = .ok st') := by
  exact ⟨(C4_mem_bounds_check 0 0 6 42 [0, 0, 0, 0, 0, 0, 0, 0] [] [] [] [] []
            [] []).1 (by decide),
         (C4_mem_bounds_check 0 0 0 42 [0, 0, 0, 0, 0, 0, 0, 0] [] [] [] [] []
            [] []).2 (by decide)⟩

/-- C9: the `i32.store` bounds check does not cover the highest byte index
the arm actually writes.  With effective address `e = (a + off) mod 2^32`:
when the check passes strictly (`e + 4 <` memory length) the store
completes, writing the value's little-endian bytes 0-2 to `e`, `e+1`,
`e+2`, writing byte 3 to `e+4`, and leaving index `e+3` unchanged; when the
check passes with `e + 4 =` memory length — the last span it accepts — the
write to index `e+4` is outside the memory and the store aborts on an
out-of-range index (`Err.indexPanic`) instead of completing. -/
theorem C9_store_bounds_check_gap (al off a v : Nat) (mem : List Nat)
    (rest : List Value) (fs : List Func) (ts : List (List (Option Nat)))
    (gl : List Global) (ms : List Module) (L : List Value)
    (ips : List IpEntry) :
    (u32wrap (a + off) + 4 = mem.length →
      execSimple (.I32Store al off)
        { store := { funcs := fs, tables := ts, mems := [mem], globals := gl },
          stack := .I32 v :: .I32 a :: rest,
          frames := [{ locals := L, module_idx := 0 }],
          modules := ms, ip := ips } = .error .indexPanic) ∧
    (u32wrap (a + off) + 4 < mem.length →
      ∃ mem',
        execSimple (.I32Store al off)
          { store := { funcs := fs, tables := ts, mems := [mem], globals := gl },
            stack := .I32 v :: .I32 a :: rest,
            frames := [{ locals := L, module_idx := 0 }],
            modules := ms, ip := ips } =
          .ok { store := { funcs := fs, tables := ts, mems := [mem'],
                           globals := gl },
                stack := rest,
                frames := [{ locals := L, module_idx := 0 }],
                modules := ms, ip := ips } ∧
        mem'.length = mem.length ∧
        mem'[u32wrap (a + off)]? = some (leByte v 0) ∧
        mem'[u32wrap (a + off) + 1]? = some (leByte v 1) ∧
        mem'[u32wrap (a + off) + 2]? = some (leByte v 2) ∧
        mem'[u32wrap (a + off) + 3]? = mem[u32wrap (a + off) + 3]? ∧
        mem'[u32wrap (a + off) + 4]? = some (leByte v 3)) := by
  constructor
  · intro h
    have h0 : u32wrap (a + off) < mem.length := by omega
    have h1 : u32wrap (a + off) + 1 < mem.length := by omega
    have h2 : u32wrap (a + off) + 2 < mem.length := by omega
    simp [execSimple, popI32, currentModuleIdx, listIdx, storeByte,
          if_neg (by omega : ¬ u32wrap (a + off) + 4 > mem.length),
          if_pos h0, List.length_set, if_pos h1, if_pos h2,
          if_neg (by omega : ¬ u32wrap (a + off) + 4 < mem.length)]
  · intro h
    have h0 : u32wrap (a + off) < mem.length := by omega
    have h1 : u32wrap (a + off) + 1 < mem.length := by omega
    have h2 : u32wrap (a + off) + 2 < mem.length := by omega
    refine ⟨(((mem.set (u32wrap (a + off)) (leByte v 0)).set
              (u32wrap (a + off) + 1) (leByte v 1)).set
              (u32wrap (a + off) + 2) (leByte v 2)).set
              (u32wrap (a + off) + 4) (leByte v 3), ?_, ?_, ?_, ?_, ?_, ?_, ?_⟩
    · simp [execSimple, popI32, currentModuleIdx, listIdx, storeByte, setMem,
            if_neg (by omega : ¬ u32wrap (a + off) + 4 > mem.length),
            if_pos h0, List.length_set, if_pos h1, if_pos h2, if_pos h]
    · simp [List.length_set]
    · rw [List.getElem?_set_ne (by omega), List.getElem?_set_ne (by omega),
          List.getElem?_set_ne (by omega),
          List.getElem?_set_self (by first | omega | (simp [List.length_set]; omega))]
    · rw [List.getElem?_set_ne (by omega), List.getElem?_set_ne (by omega),
          List.getElem?_set_self (by first | omega | (simp [List.length_set]; omega))]
    · rw [List.getElem?_set_ne (by omega),
          List.getElem?_set_self (by first | omega | (simp [List.length_set]; omega))]
    · rw [List.getElem?_set_ne (by omega), List.getElem?_set_ne (by omega),
          List.getElem?_set_ne (by omega), List.getElem?_set_ne (by omega)]
    · rw [List.getElem?_set_self (by first | omega | (simp [List.length_set]; omega))]

/-- Witness for C9 at concrete inputs: with a 4-byte memory, storing at
address 0 passes the bounds check (span `[0,4)`) but aborts on the
out-of-range write to index 4; with an 8-byte memory, storing
v = 67305985 = 0x04030201 at address 0 writes bytes 1, 2, 3 to indices
0, 1, 2, leaves index 3 at its old value 0, and writes byte 4 to index 4. -/
theorem C9_store_bounds_check_gap_witness :
    (execSimple (.I32Store 0 0)
      { store := { funcs := [], tables := [], mems := [[0, 0, 0, 0]],
                   globals := [] },
        stack := [.I32 42, .I32 0],
        frames := [{ locals := [], module_idx := 0 }],
        modules := [], ip := [] } = .error .indexPanic) ∧
    (∃ mem',
      execSimple (.I32Store 0 0)
        { store := { funcs := [], tables := [],
                     mems := [[0, 0, 0, 0, 0, 0, 0, 0]], globals := [] },
          stack := [.I32 67305985, .I32 0],
          frames := [{ locals := [], module_idx := 0 }],
          modules := [], ip := [] } =
        .ok { store := { funcs := [], tables := [], mems := [mem'],
                         globals := [] },
              stack := [],
              frames := [{ locals := [], module_idx := 0 }],
              modules := [], ip := [] } ∧
      mem'.length = 8 ∧
      mem'[u32wrap (0 + 0)]? = some (leByte 67305985 0) ∧
      mem'[u32wrap (0 + 0) + 1]? = some (leByte 67305985 1) ∧
      mem'[u32wrap (0 + 0) + 2]? = some (leByte 67305985 2) ∧
      mem'[u32wrap (0 + 0) + 3]? = ([0, 0, 0, 0, 0, 0, 0, 0] : List Nat)[u32wrap (0 + 0) + 3]? ∧
      mem'[u32wrap (0 + 0) + 4]? = some (leByte 67305985 3)) := by
  exact ⟨(C9_store_bounds_check_gap 0 0 0 42 [0, 0, 0, 0] [] [] [] [] [] []
            []).1 (by decide),
         (C9_store_bounds_check_gap 0 0 0 67305985 [0, 0, 0, 0, 0, 0, 0, 0]
            [] [] [] [] [] [] []).2 (by decide)⟩

/-- Helper: dropping at a just-written index exposes the written value
followed by the rest. -/
theorem set_then_drop {α : Type} (l : List α) (k : Nat) (v : α)
    (h : k < l.length) : (l.set k v).drop k = v :: l.drop (k + 1) := by
  rw [List.drop_set, if_neg (by omega : ¬ k < k), Nat.sub_self,
      List.drop_eq_getElem_cons h, List.set_cons_zero]

/-- Helper: the argument-binding loop of `call`, fed a stack holding `args`
pushed left to right (so `args.reverse` sits on top), binds `args[i]` to
local `i` and leaves the rest of the stack. -/
theorem bindArgs_append (args : List Value) : ∀ (f : Frame) (rest : List Value),
    args.length ≤ f.locals.length →
    bindArgs args.length f (args.reverse ++ rest) =
      .ok ({ f with locals := args ++ f.locals.drop args.length }, rest) := by
  induction args using List.reverseRecOn with
  | nil => intro f rest _; simp [bindArgs]
  | append_singleton as v ih =>
    intro f rest h
    simp only [List.reverse_append, List.reverse_cons, List.reverse_nil,
               List.nil_append, List.cons_append, List.length_append,
               List.length_cons, List.length_nil, Nat.zero_add] at h ⊢
    have hk : as.length < f.locals.length := by omega
    rw [show as.length + 1 = (as.length) + 1 from rfl]
    simp only [bindArgs, popValue, Frame.set_local, if_pos hk]
    rw [ih { f with locals := f.locals.set as.length v } rest
          (by simp [List.length_set]; omega)]
    simp only [Except.ok.injEq, Prod.mk.injEq, and_true]
    have : (f.locals.set as.length v).drop as.length = v :: f.locals.drop (as.length + 1) :=
      set_then_drop f.locals as.length v hk
    simp [this, List.append_assoc]

/-- C6: `call` on a function whose declared type has N parameters pops
exactly N values off the operand stack and binds them to the callee's
locals `0..N` in push order: with `args` pushed left to right (so the stack
top holds the last-pushed value), the fresh frame's locals start with
`args` itself — `args[0]`, the first-pushed value, is local 0 — followed by
the zero-initialized declared locals, and the operand stack retains exactly
the values below the arguments. -/
theorem C6_call_binds_args_in_push_order (rt : Runtime)
    (module_idx fun_idx : Nat) (mdl : Module) (fun_addr : Nat) (fn : Func)
    (fty : FuncType) (args rest : List Value)
    (hmod : rt.modules[module_idx]? = some mdl)
    (haddr : mdl.func_addrs[fun_idx]? = some fun_addr)
    (hfunc : rt.store.funcs[fun_addr]? = some fn)
    (hty : mdl.types[fn.func.ty]? = some fty)
    (harity : args.length = fty.args.length)
    (hstack : rt.stack = args.reverse ++ rest) :
    callSetup rt module_idx fun_idx =
      .ok { rt with
              frames := { locals := args ++
                            List.replicate fn.func.locals.length (.I32 0),
                          module_idx := fn.module_idx } :: rt.frames,
              stack := rest,
              ip := (BlockType.Function, fn.func.expr, 0) :: rt.ip } := by
  have hbind := bindArgs_append args
    { locals := List.replicate (args.length + fn.func.locals.length) (.I32 0),
      module_idx := fn.module_idx } rest
    (by simp [List.length_replicate])
  simp only [callSetup, listIdx, hmod, haddr, hfunc, hty, hstack, ← harity,
             hbind, List.drop_replicate, Nat.add_sub_cancel_left]

/-- Witness for C6 at a concrete input: a two-parameter function; pushing 7
then 8 binds 7 (the first-pushed value) to local 0 and 8 to local 1, with
one declared local zero-initialized after them, and pops exactly the two
arguments. -/
theorem C6_call_binds_args_in_push_order_witness :
    callSetup
      { store := { funcs := [{ module_idx := 0,
                               func := { ty := 0, locals := [.i32],
                                         expr := [.Return] } }],
                   tables := [], mems := [], globals := [] },
        stack := [.I32 8, .I32 7, .I32 99],
        frames := [], modules :=
          [{ Module.default with
               types := [{ args := [.i32, .i32], ret := [] }],
               func_addrs := [0] }],
        ip := [] } 0 0 =
      .ok
      { store := { funcs := [{ module_idx := 0,
                               func := { ty := 0, locals := [.i32],
                                         expr := [.Return] } }],
                   tables := [], mems := [], globals := [] },
        stack := [.I32 99],
        frames := [{ locals := [.I32 7, .I32 8, .I32 0], module_idx := 0 }],
        modules :=
          [{ Module.default with
               types := [{ args := [.i32, .i32], ret := [] }],
               func_addrs := [0] }],
        ip := [(BlockType.Function, [.Return], 0)] } := by
  exact C6_call_binds_args_in_push_order
    { store := { funcs := [{ module_idx := 0,
                             func := { ty := 0, locals := [.i32],
                                       expr := [.Return] } }],
                 tables := [], mems := [], globals := [] },
      stack := [.I32 8, .I32 7, .I32 99],
      frames := [], modules :=
        [{ Module.default with
             types := [{ args := [.i32, .i32], ret := [] }],
             func_addrs := [0] }],
      ip := [] }
    0 0
    { Module.default with
        types := [{ args := [.i32, .i32], ret := [] }], func_addrs := [0] }
    0
    { module_idx := 0, func := { ty := 0, locals := [.i32], expr := [.Return] } }
    { args := [.i32, .i32], ret := [] }
    [.I32 7, .I32 8] [.I32 99]
    rfl rfl rfl rfl rfl rfl

/-- C5: the globals loop of `allocate_module` evaluates each initializer as
a constant expression, at any point of the loop (accumulated store globals
`gs` and address table `addrs`): an initializer that is exactly one numeric
constant stores that value together with the declared mutability and
records the next store address; an initializer that is exactly one
get-global instruction is the other permitted constant form — it is
classified as `ConstExpr.GlobalGet`, not rejected as non-constant — though
the import-value lookup it requires is unimplemented (`todo!()`), which
also aborts allocation; any other initializer expression fails allocation
with the `Global value is not a constant expression` error. -/
theorem C5_global_init_const_expr (g : ParsedGlobal) (grest : List ParsedGlobal)
    (gs : List Global) (addrs : List Nat) :
    (∀ v, ConstExpr.from_expr g.expr = some (.Const v) →
      allocGlobals (g :: grest) gs addrs =
        allocGlobals grest (gs ++ [{ value := v, mutable := g.ty.mut_ = .Var }])
          (addrs ++ [gs.length])) ∧
    (∀ i, g.expr = [.GlobalGet i] →
      ConstExpr.from_expr g.expr = some (.GlobalGet i) ∧
      allocGlobals (g :: grest) gs addrs = .error .todo) ∧
    (ConstExpr.from_expr g.expr = none →
      allocGlobals (g :: grest) gs addrs = .error .constExprInvalid) := by
  refine ⟨fun v hv => ?_, fun i hi => ?_, fun hn => ?_⟩
  · simp [allocGlobals, hv]
  · constructor
    · simp [hi, ConstExpr.from_expr]
    · simp [allocGlobals, hi, ConstExpr.from_expr]
  · simp [allocGlobals, hn]

/-- Witness for C5 at concrete inputs: a `i32.const 7` initializer for a
mutable global stores value 7 with the mutable flag; a `global.get 0`
initializer is classified as the permitted get-global constant form and
aborts in the unimplemented import lookup; a two-instruction initializer is
rejected as not a constant expression. -/
theorem C5_global_init_const_expr_witness :
    (allocGlobals [{ ty := { mut_ := .Var }, expr := [.I32Const 7] }] [] [] =
      allocGlobals [] [{ value := .I32 7, mutable := true }] [0]) ∧
    (ConstExpr.from_expr [.GlobalGet 0] = some (.GlobalGet 0) ∧
      allocGlobals [{ ty := { mut_ := .Const }, expr := [.GlobalGet 0] }] [] [] =
        .error .todo) ∧
    (allocGlobals
      [{ ty := { mut_ := .Var }, expr := [.I32Const 1, .I32Const 2] }] [] [] =
      .error .constExprInvalid) := by
  refine ⟨?_, ?_, ?_⟩
  · exact (C5_global_init_const_expr
      { ty := { mut_ := .Var }, expr := [.I32Const 7] } [] [] []).1
      (.I32 7) rfl
  · exact (C5_global_init_const_expr
      { ty := { mut_ := .Const }, expr := [.GlobalGet 0] } [] [] []).2.1 0 rfl
  · exact (C5_global_init_const_expr
      { ty := { mut_ := .Var }, expr := [.I32Const 1, .I32Const 2] } [] [] []).2.2
      rfl

/-- Helper: `next_instr` only restructures the instruction-pointer stack;
every other runtime component is untouched. -/
theorem nextInstr_fields (rt : Runtime) :
    (nextInstr rt).store = rt.store ∧ (nextInstr rt).stack = rt.stack ∧
    (nextInstr rt).frames = rt.frames ∧ (nextInstr rt).modules = rt.modules := by
  unfold nextInstr
  split
  · exact ⟨rfl, rfl, rfl, rfl⟩
  · split
    · split <;> exact ⟨rfl, rfl, rfl, rfl⟩
    · exact ⟨rfl, rfl, rfl, rfl⟩

/-- Helper: a valid `Block`-region sequence stays valid when its head
instruction is dropped. -/
theorem wfSeqB_cons (d : Nat) (i : Instruction) (l : List Instruction)
    (h : wfSeqB d (i :: l) = true) : wfSeqB d l = true := by
  cases l with
  | nil => rfl
  | cons j rest =>
    have := (Bool.and_eq_true _ _).mp h
    exact this.2

/-- Helper: the head instruction of a valid `Block`-region sequence is
valid, in the tail-position flavour exactly when it is the region's last
instruction. -/
theorem wfSeqB_head (d : Nat) (i : Instruction) (l : List Instruction)
    (h : wfSeqB d (i :: l) = true) :
    (l = [] → wfInstrAt d true i = true) ∧
    (l ≠ [] → wfInstrAt d false i = true) := by
  cases l with
  | nil => exact ⟨fun _ => h, fun hne => absurd rfl hne⟩
  | cons j rest =>
    have h2 := (Bool.and_eq_true _ _).mp h
    refine ⟨(fun heq => by cases heq), fun _ => h2.1⟩

/-- Helper: a valid function-body suffix stays valid when its head
instruction is dropped, and that head is valid at depth 0. -/
theorem wfSeqF_cons (i : Instruction) (l : List Instruction)
    (h : wfSeqF (i :: l) = true) :
    wfInstrAt 0 false i = true ∧ wfSeqF l = true := by
  simpa [wfSeqF] using h

/-- Helper: every entry stack invariant is closed under removing the top
entry. -/
theorem wfStk_cons (e : IpEntry) (s : List IpEntry)
    (h : wfStk (e :: s) = true) :
    e.1 = BlockType.Block ∧ wfSeqB (s.length + 1) (e.2.1.drop e.2.2) = true ∧
    wfStk s = true := by
  obtain ⟨ty, blk, c⟩ := e
  unfold wfStk at h
  have h1 := (Bool.and_eq_true _ _).mp h
  have h2 := (Bool.and_eq_true _ _).mp h1.1
  refine ⟨?_, h2.2, h1.2⟩
  cases ty with
  | Block => rfl
  | Loop => exact absurd h2.1 (by simp)
  | Function => exact absurd h2.1 (by simp)

/-- Helper: the entry stack invariant is closed under dropping entries from
the top. -/
theorem wfStk_drop (k : Nat) (s : List IpEntry) (h : wfStk s = true) :
    wfStk (s.drop k) = true := by
  induction k generalizing s with
  | zero => simpa using h
  | succ k ih =>
    cases s with
    | nil => rfl
    | cons e rest => exact ih rest (wfStk_cons e rest h).2.2

/-- Helper: the teardown loop of `call` pops exactly the `Block`/`Loop`
entries sitting above the `Function` entry. -/
theorem dropWhile_wfStk (stk : List IpEntry) (h : wfStk stk = true)
    (body : List Instruction) (c : Nat) (base : List IpEntry) :
    (stk ++ (BlockType.Function, body, c) :: base).dropWhile isBlockOrLoop =
      (BlockType.Function, body, c) :: base := by
  induction stk with
  | nil => simp [List.dropWhile, isBlockOrLoop]
  | cons e s ih =>
    obtain ⟨hB, _, hs⟩ := wfStk_cons e s h
    obtain ⟨ty, blk, cc⟩ := e
    cases ty with
    | Block => simpa [List.dropWhile, isBlockOrLoop] using ih hs
    | Loop => simpa [List.dropWhile, isBlockOrLoop] using ih hs
    | Function => exact absurd hB (by simp at hB)

/-- Helper: a non-control instruction arm never touches the
instruction-pointer stack, the stored functions, the module list, the frame
count, or any frame below the current one. -/
theorem execSimple_fields (i : Instruction) (rt rt' : Runtime)
    (h : execSimple i rt = .ok rt') :
    rt'.ip = rt.ip ∧ rt'.store.funcs = rt.store.funcs ∧
    rt'.modules = rt.modules ∧ rt'.frames.length = rt.frames.length ∧
    rt'.frames.tail = rt.frames.tail := by
  cases i <;>
    simp only [execSimple] at h <;>
    (repeat' split at h) <;>
    first
      | exact Except.noConfusion h
      | (injection h with h2; subst h2; simp_all [setMem])

/-- Helper: a successful `Vec` read means the element is really there. -/
theorem listIdx_ok {α : Type} (l : List α) (i : Nat) (a : α)
    (h : listIdx l i = .ok a) : l[i]? = some a := by
  unfold listIdx at h
  cases hg : l[i]? with
  | none => rw [hg] at h; exact Except.noConfusion h
  | some b => rw [hg] at h; injection h with h2; subst h2; rfl

/-- Helper: a successful `call` setup pushes one fresh frame and one
`Function` control entry over a stored function body (which inherits the
store's branch-label validity), leaving store and modules untouched. -/
theorem callSetup_shape (rt rt1 : Runtime) (m f : Nat)
    (hWf : WfFuncs rt.store.funcs = true)
    (h : callSetup rt m f = .ok rt1) :
    rt1.store = rt.store ∧ rt1.modules = rt.modules ∧
    rt1.frames.length = rt.frames.length + 1 ∧ rt1.frames.tail = rt.frames ∧
    ∃ fbody, rt1.ip = (BlockType.Function, fbody, 0) :: rt.ip ∧
      wfSeqF fbody = true := by
  unfold callSetup at h
  cases hm : listIdx rt.modules m with
  | error e => simp only [hm] at h; exact Except.noConfusion h
  | ok mdl =>
  simp only [hm] at h
  cases ha : listIdx mdl.func_addrs f with
  | error e => simp only [ha] at h; exact Except.noConfusion h
  | ok fun_addr =>
  simp only [ha] at h
  cases hfn : listIdx rt.store.funcs fun_addr with
  | error e => simp only [hfn] at h; exact Except.noConfusion h
  | ok fn =>
  simp only [hfn] at h
  cases hty : listIdx mdl.types fn.func.ty with
  | error e => simp only [hty] at h; exact Except.noConfusion h
  | ok fty =>
  simp only [hty] at h
  cases hb : bindArgs fty.args.length
      { locals := List.replicate (fty.args.length + fn.func.locals.length)
          (.I32 0),
        module_idx := fn.module_idx } rt.stack with
  | error e => simp only [hb] at h; exact Except.noConfusion h
  | ok fs =>
  obtain ⟨frame, stack1⟩ := fs
  simp only [hb] at h
  injection h with h2
  subst h2
  refine ⟨rfl, rfl, by simp, by simp, fn.func.expr, rfl, ?_⟩
  have hmem : fn ∈ rt.store.funcs := by
    have hg := listIdx_ok rt.store.funcs fun_addr fn hfn
    exact List.getElem?_mem hg
  exact List.all_eq_true.mp hWf fn hmem

/-- Helper: with the control stack in invariant shape and a nonempty frame
stack, `call`'s teardown pops the frame, all `Block`/`Loop` entries above
the `Function` entry, and the `Function` entry itself. -/
theorem callTeardown_shape (rt2 : Runtime) (stk : List IpEntry)
    (body : List Instruction) (c : Nat) (base : List IpEntry)
    (hip : rt2.ip = stk ++ (BlockType.Function, body, c) :: base)
    (hstk : wfStk stk = true) (g : Frame) (gs : List Frame)
    (hfr : rt2.frames = g :: gs) :
    callTeardown rt2 = .ok { rt2 with frames := gs, ip := base } := by
  unfold callTeardown
  rw [hfr, hip, dropWhile_wfStk stk hstk body c base]

/-- Helper: the `next_instr` equation on a `Function` top entry: the cursor
advances whether or not the end of the sequence was reached. -/
theorem nextInstr_cons_fn (rt : Runtime) (blk : List Instruction) (c : Nat)
    (rest : List IpEntry)
    (hip : rt.ip = (BlockType.Function, blk, c) :: rest) :
    nextInstr rt = { rt with ip := (BlockType.Function, blk, c + 1) :: rest } := by
  obtain ⟨st, sk, fr, mo, ipl⟩ := rt
  simp only at hip
  subst hip
  simp only [nextInstr]
  split <;> rfl

/-- Helper: the `next_instr` equations on a `Block` top entry: the entry is
discarded at the end of its sequence and its cursor advances otherwise. -/
theorem nextInstr_cons_block (rt : Runtime) (blk : List Instruction) (c : Nat)
    (rest : List IpEntry)
    (hip : rt.ip = (BlockType.Block, blk, c) :: rest) :
    (c + 1 ≥ blk.length → nextInstr rt = { rt with ip := rest }) ∧
    (c + 1 < blk.length →
      nextInstr rt = { rt with ip := (BlockType.Block, blk, c + 1) :: rest }) := by
  obtain ⟨st, sk, fr, mo, ipl⟩ := rt
  simp only at hip
  subst hip
  constructor
  · intro hend
    simp only [nextInstr, if_pos hend]
  · intro hend
    simp only [nextInstr, if_neg (by omega : ¬ c + 1 ≥ blk.length)]

/-- Helper: a valid function-body suffix stays valid one instruction
further. -/
theorem wfSeqF_drop_one (body : List Instruction) (c : Nat)
    (hbody : wfSeqF (body.drop c) = true) :
    wfSeqF (body.drop (c + 1)) = true := by
  have hdd : body.drop (c + 1) = (body.drop c).drop 1 := by
    rw [List.drop_drop]
  rw [hdd]
  cases hd : body.drop c with
  | nil => rfl
  | cons i l =>
    rw [hd] at hbody
    simpa using (wfSeqF_cons i l hbody).2

/-- Helper: starting from the invariant decomposition of the control stack,
`next_instr` preserves it (advancing a cursor, discarding a finished
`Block` entry, or stepping the `Function` cursor past the end). -/
theorem nextInstr_decomp (rt : Runtime) (stk : List IpEntry)
    (body : List Instruction) (c : Nat) (base : List IpEntry)
    (hip : rt.ip = stk ++ (BlockType.Function, body, c) :: base)
    (hstk : wfStk stk = true) (hbody : wfSeqF (body.drop c) = true) :
    ∃ stk' c', (nextInstr rt).ip = stk' ++ (BlockType.Function, body, c') :: base ∧
      wfStk stk' = true ∧ wfSeqF (body.drop c') = true := by
  cases stk with
  | nil =>
    have hn := nextInstr_cons_fn rt body c base (by simpa using hip)
    refine ⟨[], c + 1, ?_, rfl, wfSeqF_drop_one body c hbody⟩
    rw [hn]
    rfl
  | cons e s =>
    obtain ⟨hB, hwfe, hs⟩ := wfStk_cons e s hstk
    obtain ⟨ty, blk, ce⟩ := e
    simp only at hB
    subst hB
    have hn := nextInstr_cons_block rt blk ce
      (s ++ (BlockType.Function, body, c) :: base) (by simpa using hip)
    by_cases hend : ce + 1 ≥ blk.length
    · refine ⟨s, c, ?_, hs, hbody⟩
      rw [hn.1 hend]
    · refine ⟨(BlockType.Block, blk, ce + 1) :: s, c, ?_, ?_, hbody⟩
      · rw [hn.2 (by omega)]
        rfl
      · unfold wfStk
        simp only [Bool.and_eq_true]
        refine ⟨⟨trivial, ?_⟩, hs⟩
        have hdd : blk.drop (ce + 1) = (blk.drop ce).drop 1 := by
          rw [List.drop_drop]
        rw [hdd]
        cases hd : blk.drop ce with
        | nil => rfl
        | cons i l =>
          rw [hd] at hwfe
          simpa using wfSeqB_cons (s.length + 1) i l hwfe

/-- Helper: the instruction at the cursor of the top control entry is
branch-label valid at the entry's dynamic depth, in the flavour matching
its position (the top entry is either the `Function` entry itself or the
topmost `Block` entry of the invariant stack). -/
theorem top_instr_wf (rt : Runtime) (stk : List IpEntry)
    (body : List Instruction) (c : Nat) (base : List IpEntry) (t : BlockType)
    (tb : List Instruction) (tc : Nat) (tl : List IpEntry)
    (instr : Instruction)
    (hip : rt.ip = stk ++ (BlockType.Function, body, c) :: base)
    (hstk : wfStk stk = true) (hbody : wfSeqF (body.drop c) = true)
    (htop : rt.ip = (t, tb, tc) :: tl) (hfetch : tb[tc]? = some instr) :
    (stk = [] ∧ t = BlockType.Function ∧ tb = body ∧ tc = c ∧ tl = base ∧
      wfInstrAt 0 false instr = true) ∨
    (∃ s, stk = (BlockType.Block, tb, tc) :: s ∧ t = BlockType.Block ∧
      tl = s ++ (BlockType.Function, body, c) :: base ∧
      wfSeqB (s.length + 1) (tb.drop (tc + 1)) = true ∧
      ((tb.drop (tc + 1) = [] ∧ wfInstrAt (s.length + 1) true instr = true) ∨
       (tb.drop (tc + 1) ≠ [] ∧
         wfInstrAt (s.length + 1) false instr = true))) := by
  have hlt : tc < tb.length := (List.getElem?_eq_some.mp hfetch).1
  have hdc : tb.drop tc = instr :: tb.drop (tc + 1) := by
    rw [List.drop_eq_getElem_cons hlt]
    rcases List.getElem?_eq_some.mp hfetch with ⟨hl, hg⟩
    rw [hg]
  cases stk with
  | nil =>
    rw [hip] at htop
    simp only [List.nil_append, List.cons.injEq, Prod.mk.injEq] at htop
    obtain ⟨⟨ht, htb, htc⟩, htl⟩ := htop
    subst ht; subst htb; subst htc
    left
    refine ⟨rfl, rfl, rfl, rfl, htl.symm, ?_⟩
    rw [hdc] at hbody
    exact (wfSeqF_cons instr (body.drop (c + 1)) hbody).1
  | cons e s =>
    obtain ⟨hB, hwfe, hs⟩ := wfStk_cons e s hstk
    obtain ⟨ty, blk, ce⟩ := e
    simp only at hB
    subst hB
    rw [hip] at htop
    simp only [List.cons_append, List.cons.injEq, Prod.mk.injEq] at htop
    obtain ⟨⟨ht, htb, htc⟩, htl⟩ := htop
    subst ht; subst htb; subst htc
    right
    simp only at hwfe
    rw [hdc] at hwfe
    refine ⟨s, rfl, rfl, htl.symm,
            wfSeqB_cons (s.length + 1) instr (blk.drop (ce + 1)) hwfe, ?_⟩
    have hhead := wfSeqB_head (s.length + 1) instr (blk.drop (ce + 1)) hwfe
    by_cases hend : blk.drop (ce + 1) = []
    · exact Or.inl ⟨hend, hhead.1 hend⟩
    · exact Or.inr ⟨hend, hhead.2 hend⟩

/-- Helper: executing the `Block` instruction at the top entry's cursor —
advancing the current region via `next_instr` and pushing a fresh `Block`
entry — preserves the invariant decomposition of the control stack, with
the nested sequence valid at its dynamic depth. -/
theorem push_block_decomp (rt : Runtime) (stk : List IpEntry)
    (body : List Instruction) (c : Nat) (base : List IpEntry) (t : BlockType)
    (tb : List Instruction) (tc : Nat) (tl : List IpEntry)
    (instrs : List Instruction)
    (hip : rt.ip = stk ++ (BlockType.Function, body, c) :: base)
    (hstk : wfStk stk = true) (hbody : wfSeqF (body.drop c) = true)
    (htop : rt.ip = (t, tb, tc) :: tl)
    (hfetch : tb[tc]? = some (.Block instrs)) :
    ∃ stk2 c2, (BlockType.Block, instrs, 0) :: (nextInstr rt).ip =
        stk2 ++ (BlockType.Function, body, c2) :: base ∧
      wfStk stk2 = true ∧ wfSeqF (body.drop c2) = true := by
  rcases top_instr_wf rt stk body c base t tb tc tl (.Block instrs)
      hip hstk hbody htop hfetch with
    ⟨hnil, ht, htb, htc, htl, hwfi⟩ | ⟨s, hcons, ht, htl, hrest, hflav⟩
  · subst hnil; subst htb; subst htc; subst htl
    simp only [List.nil_append] at hip
    have hn := nextInstr_cons_fn rt tb tc tl hip
    refine ⟨[(BlockType.Block, instrs, 0)], tc + 1, ?_, ?_,
            wfSeqF_drop_one tb tc hbody⟩
    · rw [hn]
      rfl
    · simpa [wfStk, wfInstrAt] using hwfi
  · subst hcons; subst htl
    simp only [List.cons_append] at hip
    have hn := nextInstr_cons_block rt tb tc
      ((s ++ (BlockType.Function, body, c) :: base)) hip
    rcases hflav with ⟨hend, hwfi⟩ | ⟨hend, hwfi⟩
    · have hge : tc + 1 ≥ tb.length := List.drop_eq_nil_iff.mp hend
      refine ⟨(BlockType.Block, instrs, 0) :: s, c, ?_, ?_, hbody⟩
      · rw [hn.1 hge]
        rfl
      · simpa [wfStk, wfInstrAt] using ⟨hwfi, (wfStk_cons _ s hstk).2.2⟩
    · have hlt2 : tc + 1 < tb.length := by
        rcases Nat.lt_or_ge (tc + 1) tb.length with hx | hx
        · exact hx
        · exact absurd (List.drop_eq_nil_iff.mpr hx) hend
      refine ⟨(BlockType.Block, instrs, 0) :: (BlockType.Block, tb, tc + 1) :: s,
              c, ?_, ?_, hbody⟩
      · rw [hn.2 hlt2]
        rfl
      · simpa [wfStk, wfInstrAt] using ⟨hwfi, hrest, (wfStk_cons _ s hstk).2.2⟩

/-- Helper: the central invariant of the dispatch loop.  If `exec` is
started with the instruction-pointer stack decomposed as a branch-label
valid entry stack over the current invocation's `Function` entry over
arbitrary `base` entries, and it completes, then: the stored functions, the
module list, the frame count and every frame below the current one are
unchanged, and the instruction-pointer stack is again a valid entry stack
over the same `Function` entry over the untouched `base`. -/
theorem exec_preserves (n : Nat) : ∀ (rt st' : Runtime) (stk : List IpEntry)
    (body : List Instruction) (c : Nat) (base : List IpEntry),
    WfFuncs rt.store.funcs = true →
    rt.ip = stk ++ (BlockType.Function, body, c) :: base →
    wfStk stk = true →
    wfSeqF (body.drop c) = true →
    exec n rt = .ok st' →
    st'.store.funcs = rt.store.funcs ∧ st'.modules = rt.modules ∧
    st'.frames.length = rt.frames.length ∧ st'.frames.tail = rt.frames.tail ∧
    ∃ stk' c', st'.ip = stk' ++ (BlockType.Function, body, c') :: base ∧
      wfStk stk' = true := by
  induction n with
  | zero =>
    intro rt st' stk body c base _ _ _ _ h
    exact Except.noConfusion h
  | succ n ih =>
    intro rt st' stk body c base hWf hip hstk hbody h
    obtain ⟨t, tb, tc, tl, htop⟩ : ∃ t tb tc tl, rt.ip = (t, tb, tc) :: tl := by
      cases stk with
      | nil => exact ⟨BlockType.Function, body, c, base, by simpa using hip⟩
      | cons e s =>
        obtain ⟨t2, tb2, tc2⟩ := e
        exact ⟨t2, tb2, tc2, s ++ (BlockType.Function, body, c) :: base,
               by simpa using hip⟩
    simp only [exec] at h
    rw [htop] at h
    simp only at h
    by_cases hc : tc = tb.length
    · rw [if_pos hc] at h
      injection h with h2
      subst h2
      obtain ⟨stk2, c2, hip2, hstk2, _⟩ :=
        nextInstr_decomp rt stk body c base hip hstk hbody
      have hf := nextInstr_fields rt
      exact ⟨by rw [hf.1], by rw [hf.2.2.2], by rw [hf.2.2.1],
             by rw [hf.2.2.1], stk2, c2, hip2, hstk2⟩
    · rw [if_neg hc] at h
      cases hfetch : tb[tc]? with
      | none => rw [hfetch] at h; exact Except.noConfusion h
      | some instr =>
      rw [hfetch] at h
      cases instr with
      | Call f =>
        simp only at h
        cases hcm : currentModuleIdx rt with
        | error e => simp only [hcm] at h; exact Except.noConfusion h
        | ok m =>
        simp only [hcm] at h
        cases hset : callSetup rt m f with
        | error e => simp only [hset] at h; exact Except.noConfusion h
        | ok rt1 =>
        simp only [hset] at h
        cases hex : exec n rt1 with
        | error e => simp only [hex] at h; exact Except.noConfusion h
        | ok rt2 =>
        simp only [hex] at h
        obtain ⟨hsto1, hmod1, hflen1, hftail1, fbody, hip1, hwfb⟩ :=
          callSetup_shape rt rt1 m f hWf hset
        have hWf1 : WfFuncs rt1.store.funcs = true := by
          rw [hsto1]; exact hWf
        obtain ⟨g1, g2, g3, g4, stk2, c2, hip2, hstk2⟩ :=
          ih rt1 rt2 [] fbody 0 rt.ip hWf1 (by simpa using hip1) rfl
            (by simpa using hwfb) hex
        have hfr2 : ∃ g0 gs0, rt2.frames = g0 :: gs0 ∧ gs0 = rt.frames := by
          cases hfc : rt2.frames with
          | nil =>
            rw [hfc] at g3
            rw [hflen1] at g3
            exact absurd g3.symm (by simp)
          | cons g0 gs0 =>
            refine ⟨g0, gs0, rfl, ?_⟩
            have ht2 : rt2.frames.tail = rt1.frames.tail := g4
            rw [hfc] at ht2
            simp only [List.tail_cons] at ht2
            rw [ht2, hftail1]
        obtain ⟨g0, gs0, hfc, hgs⟩ := hfr2
        have htd := callTeardown_shape rt2 stk2 fbody c2 rt.ip hip2 hstk2
          g0 gs0 hfc
        simp only [htd] at h
        obtain ⟨stk4, c4, hip4, hstk4, hbody4⟩ :=
          nextInstr_decomp { rt2 with frames := gs0, ip := rt.ip } stk body c
            base hip hstk hbody
        have hnf := nextInstr_fields { rt2 with frames := gs0, ip := rt.ip }
        have hWf4 :
            WfFuncs (nextInstr { rt2 with frames := gs0, ip := rt.ip }).store.funcs
              = true := by
          rw [hnf.1]
          show WfFuncs rt2.store.funcs = true
          rw [g1]
          rw [show rt1.store.funcs = rt.store.funcs from by rw [hsto1]]
          exact hWf
        obtain ⟨k1, k2, k3, k4, stk5, c5, hip5, hstk5⟩ :=
          ih (nextInstr { rt2 with frames := gs0, ip := rt.ip }) st' stk4 body
            c4 base hWf4 hip4 hstk4 hbody4 h
        refine ⟨?_, ?_, ?_, ?_, stk5, c5, hip5, hstk5⟩
        · rw [k1, hnf.1]
          show rt2.store.funcs = _
          rw [g1]
          rw [show rt1.store.funcs = rt.store.funcs from by rw [hsto1]]
        · rw [k2, hnf.2.2.2]
          show rt2.modules = _
          rw [g2, hmod1]
        · rw [k3, hnf.2.2.1]
          show gs0.length = _
          rw [hgs]
        · rw [k4, hnf.2.2.1]
          show gs0.tail = _
          rw [hgs]
      | CallIndirect t2 =>
        simp only at h
        exact Except.noConfusion h
      | Loop instrs =>
        simp only at h
        exact Except.noConfusion h
      | Return =>
        simp only at h
        injection h with h2
        subst h2
        exact ⟨rfl, rfl, rfl, rfl, stk, c, hip, hstk⟩
      | Block instrs =>
        simp only at h
        obtain ⟨stk2, c2, hip2, hstk2, hbody2⟩ :=
          push_block_decomp rt stk body c base t tb tc tl instrs hip hstk
            hbody htop hfetch
        have hnf := nextInstr_fields rt
        have hWfX :
            WfFuncs ({ nextInstr rt with
              ip := (BlockType.Block, instrs, 0) :: (nextInstr rt).ip }).store.funcs
              = true := by
          show WfFuncs (nextInstr rt).store.funcs = true
          rw [hnf.1]
          exact hWf
        obtain ⟨k1, k2, k3, k4, stk5, c5, hip5, hstk5⟩ :=
          ih { nextInstr rt with
                 ip := (BlockType.Block, instrs, 0) :: (nextInstr rt).ip } st'
            stk2 body c2 base hWfX hip2 hstk2 hbody2 h
        refine ⟨?_, ?_, ?_, ?_, stk5, c5, hip5, hstk5⟩
        · rw [k1]
          show (nextInstr rt).store.funcs = _
          rw [hnf.1]
        · rw [k2]
          show (nextInstr rt).modules = _
          rw [hnf.2.2.2]
        · rw [k3]
          show (nextInstr rt).frames.length = _
          rw [hnf.2.2.1]
        · rw [k4]
          show (nextInstr rt).frames.tail = _
          rw [hnf.2.2.1]
      | BrIf l =>
        simp only [execBrIf] at h
        cases hpop : popI32 rt.stack with
        | error e => simp only [hpop] at h; exact Except.noConfusion h
        | ok vs =>
        obtain ⟨v, s1⟩ := vs
        simp only [hpop] at h
        by_cases hv : v = 0
        · rw [if_neg (by simp [hv])] at h
          simp only at h
          obtain ⟨stk2, c2, hip2, hstk2, hbody2⟩ :=
            nextInstr_decomp { rt with stack := s1 } stk body c base hip hstk
              hbody
          have hnf := nextInstr_fields { rt with stack := s1 }
          have hWf2 :
              WfFuncs (nextInstr { rt with stack := s1 }).store.funcs = true := by
            rw [hnf.1]
            exact hWf
          obtain ⟨k1, k2, k3, k4, stk5, c5, hip5, hstk5⟩ :=
            ih (nextInstr { rt with stack := s1 }) st' stk2 body c2 base hWf2
              hip2 hstk2 hbody2 h
          refine ⟨?_, ?_, ?_, ?_, stk5, c5, hip5, hstk5⟩
          · rw [k1, hnf.1]
          · rw [k2, hnf.2.2.2]
          · rw [k3, hnf.2.2.1]
          · rw [k4, hnf.2.2.1]
        · rw [if_pos hv] at h
          simp only at h
          rcases top_instr_wf rt stk body c base t tb tc tl (.BrIf l) hip hstk
              hbody htop hfetch with
            ⟨_, _, _, _, _, hwfi⟩ | ⟨s, hcons, _, _, _, hflav⟩
          · exact absurd hwfi (by simp [wfInstrAt])
          · have hlab : l < s.length + 1 := by
              rcases hflav with ⟨_, hwfi⟩ | ⟨_, hwfi⟩ <;>
                simpa [wfInstrAt] using hwfi
            have hlen : l + 1 ≤ stk.length := by
              rw [hcons]
              simp only [List.length_cons]
              omega
            have hdropip : rt.ip.drop (l + 1) =
                stk.drop (l + 1) ++ (BlockType.Function, body, c) :: base := by
              rw [hip, List.drop_append_of_le_length hlen]
            obtain ⟨k1, k2, k3, k4, stk5, c5, hip5, hstk5⟩ :=
              ih { rt with stack := s1, ip := rt.ip.drop (l + 1) } st'
                (stk.drop (l + 1)) body c base hWf (by simpa using hdropip)
                (wfStk_drop (l + 1) stk hstk) hbody h
            exact ⟨k1, k2, k3, k4, stk5, c5, hip5, hstk5⟩
      | _ =>
        simp only at h
        split at h
        · exact Except.noConfusion h
        · rename_i rt1 hs
          obtain ⟨hip1, hfuncs1, hmods1, hflen1, hftail1⟩ :=
            execSimple_fields _ rt rt1 hs
          obtain ⟨stk2, c2, hip2, hstk2, hbody2⟩ :=
            nextInstr_decomp rt1 stk body c base (by rw [hip1, hip]) hstk hbody
          have hnf := nextInstr_fields rt1
          have hWf2 : WfFuncs (nextInstr rt1).store.funcs = true := by
            rw [hnf.1, hfuncs1]
            exact hWf
          obtain ⟨k1, k2, k3, k4, stk5, c5, hip5, hstk5⟩ :=
            ih (nextInstr rt1) st' stk2 body c2 base hWf2 hip2 hstk2 hbody2 h
          refine ⟨?_, ?_, ?_, ?_, stk5, c5, hip5, hstk5⟩
          · rw [k1, hnf.1, hfuncs1]
          · rw [k2, hnf.2.2.2, hmods1]
          · rw [k3, hnf.2.2.1, hflen1]
          · rw [k4, hnf.2.2.1, hftail1]

/-- C7 counterexample: a completing invocation of `call` that does NOT
restore the instruction-pointer stack.  The callee's body is `[br_if 1]`
with a true condition: the branch pops not only the callee's `Function`
entry but also a pre-existing entry of the caller; the dispatch loop then
runs the caller's `Function` entry to its end, and teardown pops that entry
too.  `call` completes (returns `ok`), the frame stack is restored, but the
instruction-pointer stack ends empty instead of holding the two pre-call
entries. -/
theorem C7_call_leaves_stacks_unrestored :
    call 10
      { store := { funcs := [{ module_idx := 0,
                               func := { ty := 0, locals := [],
                                         expr := [.BrIf 1] } }],
                   tables := [], mems := [], globals := [] },
        stack := [.I32 1], frames := [],
        modules := [{ Module.default with
                        types := [{ args := [], ret := [] }],
                        func_addrs := [0] }],
        ip := [(BlockType.Block, [], 0), (BlockType.Function, [], 0)] } 0 0 =
      .ok
      { store := { funcs := [{ module_idx := 0,
                               func := { ty := 0, locals := [],
                                         expr := [.BrIf 1] } }],
                   tables := [], mems := [], globals := [] },
        stack := [], frames := [],
        modules := [{ Module.default with
                        types := [{ args := [], ret := [] }],
                        func_addrs := [0] }],
        ip := [] } ∧
    ([] : List IpEntry) ≠
      [(BlockType.Block, [], 0), (BlockType.Function, [], 0)] := by
  exact ⟨rfl, by simp⟩

/-- C7 amended: for every invocation of `call` that completes — including
nested recursive calls and calls that execute an early `return` from inside
nested blocks — *provided every function body in the store is branch-label
valid* (each `br_if label` pops only control entries pushed within the
current invocation, never the invocation's own `Function` entry; the code
does not defend against wider labels, as the counterexample shows), the
frame stack and the control/instruction-pointer stack are restored exactly
to their pre-call state: the callee's frame, any leftover `Block`/`Loop`
entries, and the callee's `Function` entry are all popped before `call`
returns. -/
theorem C7_call_restores_stacks (fuel : Nat) (rt st' : Runtime) (m f : Nat)
    (hWf : WfFuncs rt.store.funcs = true)
    (h : call fuel rt m f = .ok st') :
    st'.frames = rt.frames ∧ st'.ip = rt.ip := by
  unfold call at h
  cases hset : callSetup rt m f with
  | error e => simp only [hset] at h; exact Except.noConfusion h
  | ok rt1 =>
  simp only [hset] at h
  cases hex : exec fuel rt1 with
  | error e => simp only [hex] at h; exact Except.noConfusion h
  | ok rt2 =>
  simp only [hex] at h
  obtain ⟨hsto1, hmod1, hflen1, hftail1, fbody, hip1, hwfb⟩ :=
    callSetup_shape rt rt1 m f hWf hset
  have hWf1 : WfFuncs rt1.store.funcs = true := by
    rw [hsto1]; exact hWf
  obtain ⟨g1, g2, g3, g4, stk2, c2, hip2, hstk2⟩ :=
    exec_preserves fuel rt1 rt2 [] fbody 0 rt.ip hWf1 (by simpa using hip1)
      rfl (by simpa using hwfb) hex
  have hfr2 : ∃ g0 gs0, rt2.frames = g0 :: gs0 ∧ gs0 = rt.frames := by
    cases hfc : rt2.frames with
    | nil =>
      rw [hfc] at g3
      rw [hflen1] at g3
      exact absurd g3.symm (by simp)
    | cons g0 gs0 =>
      refine ⟨g0, gs0, rfl, ?_⟩
      have ht2 : rt2.frames.tail = rt1.frames.tail := g4
      rw [hfc] at ht2
      simp only [List.tail_cons] at ht2
      rw [ht2, hftail1]
  obtain ⟨g0, gs0, hfc, hgs⟩ := hfr2
  have htd := callTeardown_shape rt2 stk2 fbody c2 rt.ip hip2 hstk2 g0 gs0 hfc
  rw [htd] at h
  injection h with h2
  subst h2
  exact ⟨by simpa using hgs, rfl⟩

/-- Witness for the amended C7 at a concrete input: a module whose function
0 has the branch-label valid body `[i32.const 5]`; invoking it completes
and leaves the frame and instruction-pointer stacks exactly as before the
call (here both empty). -/
theorem C7_call_restores_stacks_witness :
    call 10
      { store := { funcs := [{ module_idx := 0,
                               func := { ty := 0, locals := [],
                                         expr := [.I32Const 5] } }],
                   tables := [], mems := [], globals := [] },
        stack := [], frames := [],
        modules := [{ Module.default with
                        types := [{ args := [], ret := [] }],
                        func_addrs := [0] }],
        ip := [] } 0 0 =
      .ok
      { store := { funcs := [{ module_idx := 0,
                               func := { ty := 0, locals := [],
                                         expr := [.I32Const 5] } }],
                   tables := [], mems := [], globals := [] },
        stack := [.I32 5], frames := [],
        modules := [{ Module.default with
                        types := [{ args := [], ret := [] }],
                        func_addrs := [0] }],
        ip := [] } ∧
    ([] : List Frame) = [] ∧ ([] : List IpEntry) = [] := by
  refine ⟨rfl, ?_⟩
  exact C7_call_restores_stacks 10
    { store := { funcs := [{ module_idx := 0,
                             func := { ty := 0, locals := [],
                                       expr := [.I32Const 5] } }],
                 tables := [], mems := [], globals := [] },
      stack := [], frames := [],
      modules := [{ Module.default with
                      types := [{ args := [], ret := [] }],
                      func_addrs := [0] }],
      ip := [] }
    { store := { funcs := [{ module_idx := 0,
                             func := { ty := 0, locals := [],
                                       expr := [.I32Const 5] } }],
                 tables := [], mems := [], globals := [] },
      stack := [.I32 5], frames := [],
      modules := [{ Module.default with
                      types := [{ args := [], ret := [] }],
                      func_addrs := [0] }],
      ip := [] }
    0 0 (by decide) rfl

end Wasmrun
